import Mathlib

/-!
Verification of the core attendance engine of `attendance_app.py`
(a Zoom attendance tracker).  The Python module keeps a global
`attendance_log : List[Dict]`; we embed each dictionary entry as a
`LogEntry` structure and each mutating operation as a pure function from
the log (plus its string arguments) to the new log.  Timestamp handling
goes through `datetime.fromisoformat`, which we model below, together
with Python's semantics for subtracting two `datetime` values (offset
aware minus offset naive raises an uncaught `TypeError`, which we encode
as `none`).  All datetime quantities are kept in integer microseconds;
Python float results (durations in minutes) are embedded as `ℚ`, and
every concrete value appearing in the claims is exactly representable in
both.
-/

set_option autoImplicit false

namespace AttendanceApp

/-- Numeric value of a decimal digit character, `none` on a non-digit. -/
def digit? (c : Char) : Option Nat :=
  if c.isDigit then some (c.toNat - 48) else none

/-- Two-digit decimal number from two characters. -/
def two (a b : Char) : Option Nat := do
  let x ← digit? a
  let y ← digit? b
  pure (10 * x + y)

/-- Four-digit decimal number from four characters. -/
def four (a b c d : Char) : Option Nat := do
  let x ← two a b
  let y ← two c d
  pure (100 * x + y)

/-- Value of a string of decimal digits; `none` if any character is not
a digit (mirrors the strict digit scanning of CPython's implementation
of `fromisoformat`). -/
def digitsVal (cs : List Char) : Option Nat :=
  cs.foldl (fun acc c =>
    match acc, digit? c with
    | some n, some d => some (n * 10 + d)
    | _, _ => none) (some 0)

/-- Gregorian leap-year test, as in Python's `datetime` module. -/
def isLeap (y : Nat) : Bool :=
  y % 4 == 0 && (y % 100 != 0 || y % 400 == 0)

/-- Days in a month of a given year, as in Python's `datetime` module. -/
def daysInMonth (y m : Nat) : Nat :=
  if m = 2 then (if isLeap y then 29 else 28)
  else if m = 4 ∨ m = 6 ∨ m = 9 ∨ m = 11 then 30
  else 31

/-- Model of a parsed Python `datetime`: calendar fields plus an
optional UTC offset in microseconds (`none` = offset-naive). -/
structure PyDateTime where
  year : Nat
  month : Nat
  day : Nat
  hour : Nat
  minute : Nat
  second : Nat
  microsecond : Nat
  tzOffset : Option ℤ
  deriving Repr, DecidableEq

/-- Parse `YYYY-MM-DD` (exactly ten characters), validating the ranges
the `date` constructor enforces. -/
def parseIsoDate : List Char → Option (Nat × Nat × Nat)
  | [a, b, c, d, s1, e, f, s2, g, h] => do
    if s1 = '-' ∧ s2 = '-' then
      let y ← four a b c d
      let mo ← two e f
      let da ← two g h
      if 1 ≤ y ∧ y ≤ 9999 ∧ 1 ≤ mo ∧ mo ≤ 12 ∧ 1 ≤ da ∧ da ≤ daysInMonth y mo then
        pure (y, mo, da)
      else none
    else none
  | _ => none

/-- Parse `HH[:MM[:SS[.fff[fff]]]]` into (hour, minute, second,
microsecond) without range validation, mirroring CPython's
`_parse_hh_mm_ss_ff` (a three-digit fraction is milliseconds). -/
def parseHmsRaw : List Char → Option (Nat × Nat × Nat × Nat)
  | [a, b] => do
    pure (← two a b, 0, 0, 0)
  | [a, b, c1, d, e] => do
    if c1 = ':' then pure (← two a b, ← two d e, 0, 0) else none
  | [a, b, c1, d, e, c2, f, g] => do
    if c1 = ':' ∧ c2 = ':' then pure (← two a b, ← two d e, ← two f g, 0) else none
  | a :: b :: c1 :: d :: e :: c2 :: f :: g :: dot :: frac => do
    if c1 = ':' ∧ c2 = ':' ∧ dot = '.' ∧ (frac.length = 3 ∨ frac.length = 6) then
      let us ← digitsVal frac
      pure (← two a b, ← two d e, ← two f g, if frac.length = 3 then us * 1000 else us)
    else none
  | _ => none

/-- Index of the first occurrence of a character, as Python `str.find`. -/
def pyFind (cs : List Char) (c : Char) : Option Nat :=
  cs.findIdx? (· = c)

/-- Split a time string at the first `-`, else the first `+`, into the
clock part and an optional (sign, offset-string) pair — the logic of
`tz_pos = (tstr.find('-') + 1 or tstr.find('+') + 1)`. -/
def splitTz (cs : List Char) : List Char × Option (Char × List Char) :=
  match pyFind cs '-' with
  | some k => (cs.take k, some ('-', cs.drop (k + 1)))
  | none =>
    match pyFind cs '+' with
    | some k => (cs.take k, some ('+', cs.drop (k + 1)))
    | none => (cs, none)

/-- Parse the timezone part after the sign: the string must have the
length of `HH:MM`, `HH:MM:SS` or `HH:MM:SS.ffffff`, and the resulting
offset must be strictly inside ±24 hours (the `timezone` constructor's
check).  Result: signed offset in microseconds. -/
def parseTz (sgn : Char) (tzstr : List Char) : Option ℤ := do
  if tzstr.length = 5 ∨ tzstr.length = 8 ∨ tzstr.length = 15 then
    let (h, m, s, us) ← parseHmsRaw tzstr
    let total : ℤ := ((h * 3600 + m * 60 + s) * 1000000 + us : Nat)
    let off : ℤ := if sgn = '-' then -total else total
    if -86400000000 < off ∧ off < 86400000000 then pure off else none
  else none

/-- Model of `datetime.fromisoformat`: the date is the first ten
characters, the character at index 10 (when present) is an arbitrary
separator, and the remainder is `HH[:MM[:SS[.fff[fff]]]]` with an
optional `±HH:MM[...]` timezone suffix.  Returns `none` exactly when
the Python call raises `ValueError`. -/
def fromisoformat (s : String) : Option PyDateTime := do
  let cs := s.data
  let (y, mo, da) ← parseIsoDate (cs.take 10)
  let tstr := cs.drop 11
  if tstr.isEmpty then
    pure ⟨y, mo, da, 0, 0, 0, 0, none⟩
  else
    let (timestr, tz?) := splitTz tstr
    do
      let (h, mi, se, us) ← parseHmsRaw timestr
      if h ≤ 23 ∧ mi ≤ 59 ∧ se ≤ 59 then
        match tz? with
        | none => pure ⟨y, mo, da, h, mi, se, us, none⟩
        | some (sgn, tzstr) => do
          let off ← parseTz sgn tzstr
          pure ⟨y, mo, da, h, mi, se, us, some off⟩
      else none

/-- Days in all years strictly before year `y` (proleptic Gregorian),
as `datetime._days_before_year`. -/
def daysBeforeYear (y : Nat) : Nat :=
  (y - 1) * 365 + (y - 1) / 4 - (y - 1) / 100 + (y - 1) / 400

/-- Days in all months of year `y` strictly before month `m`. -/
def daysBeforeMonth (y m : Nat) : Nat :=
  (List.range (m - 1)).foldl (fun acc i => acc + daysInMonth y (i + 1)) 0

/-- Proleptic Gregorian ordinal of a date, as `date.toordinal`. -/
def toordinal (y m d : Nat) : Nat :=
  daysBeforeYear y + daysBeforeMonth y m + d

/-- Microseconds represented by the naive (wall clock) part of a
datetime, counted from the proleptic epoch. -/
def naiveMicros (dt : PyDateTime) : ℤ :=
  (((toordinal dt.year dt.month dt.day * 86400 +
     dt.hour * 3600 + dt.minute * 60 + dt.second) * 1000000 +
     dt.microsecond : Nat) : ℤ)

/-- Absolute position of a datetime on the UTC timeline in
microseconds: the naive wall clock minus the UTC offset (an
offset-naive value is read at offset 0).  This is the quantity Python's
aware-datetime subtraction compares. -/
def absMicros (dt : PyDateTime) : ℤ :=
  naiveMicros dt - (dt.tzOffset.getD 0)

/-- Python subtraction `l - j` of two datetimes, in microseconds.  Both
aware: difference of UTC positions.  Both naive: difference of wall
clocks.  Mixed: `TypeError` (uncaught by the source), encoded `none`. -/
def pyDateTimeSub (l j : PyDateTime) : Option ℤ :=
  match l.tzOffset, j.tzOffset with
  | some ol, some oj => some ((naiveMicros l - ol) - (naiveMicros j - oj))
  | none, none => some (naiveMicros l - naiveMicros j)
  | _, _ => none

/-- Python `s.replace("Z", "+00:00")` on the character list: every `Z`
is replaced, not only a trailing one. -/
def replaceZ : List Char → List Char
  | [] => []
  | c :: rest =>
    if c = 'Z' then '+' :: '0' :: '0' :: ':' :: '0' :: '0' :: replaceZ rest
    else c :: replaceZ rest

/-- String form of the `Z` normalization done by `calculate_duration`. -/
def pyReplaceZ (s : String) : String := ⟨replaceZ s.data⟩

/-- Minutes (as a Python float, embedded in `ℚ`) represented by a
timedelta of `d` microseconds: `total_seconds() / 60`. -/
def microsToMinutes (d : ℤ) : ℚ := ((d : ℚ) / 1000000) / 60

/-- `calculate_duration(join_time, leave_time)` from the source: parse
both normalized timestamps inside a `try` that catches `ValueError` and
`AttributeError` (giving `0.0`), then return the timedelta in minutes.
`none` encodes the uncaught `TypeError` of a mixed naive/aware
subtraction escaping the function. -/
def calculate_duration (join_time leave_time : String) : Option ℚ :=
  match fromisoformat (pyReplaceZ join_time) with
  | none => some 0
  | some j =>
    match fromisoformat (pyReplaceZ leave_time) with
    | none => some 0
    | some l => (pyDateTimeSub l j).map microsToMinutes

/-- One entry of the global `attendance_log` list: the dictionary
created by `log_join` and mutated by `log_leave`.  `event` is the
source's `"joined"`/`"left"` string flag; `leave_time` is `None`
(`none`) while the session is open; `timestamp` is the
`datetime.now().isoformat()` audit field, treated as an opaque input. -/
structure LogEntry where
  event : String
  meeting_id : String
  user_id : String
  user_name : String
  join_time : String
  leave_time : Option String
  timestamp : String
  deriving Repr, DecidableEq

/-- `log_join`: always appends one new `"joined"` entry with the given
fields and `leave_time = None`.  The wall-clock `now` string is passed
explicitly. -/
def log_join (meeting_id user_id user_name join_time now : String)
    (log : List LogEntry) : List LogEntry :=
  log ++ [⟨"joined", meeting_id, user_id, user_name, join_time, none, now⟩]

/-- The match condition of `log_leave`'s scan: `event == "joined"`,
both ids equal, and `leave_time is None`. -/
def leaveMatches (meeting_id user_id : String) (e : LogEntry) : Bool :=
  e.event == "joined" && e.meeting_id == meeting_id &&
    e.user_id == user_id && e.leave_time == none

/-- The in-place mutation `log_leave` performs on the matched entry:
set `leave_time` and flip `event` to `"left"`. -/
def closeEntry (leave_time : String) (e : LogEntry) : LogEntry :=
  { e with leave_time := some leave_time, event := "left" }

/-- Close the most recently appended matching entry, mirroring the
`for entry in reversed(attendance_log)` scan: matches in the tail take
priority over the head.  Returns the updated list together with the
matched entry as it was before mutation, or `none` when no entry
matches. -/
def closeLast (meeting_id user_id leave_time : String) :
    List LogEntry → Option (List LogEntry × LogEntry)
  | [] => none
  | e :: rest =>
    match closeLast meeting_id user_id leave_time rest with
    | some (r, me) => some (e :: r, me)
    | none =>
      if leaveMatches meeting_id user_id e then
        some (closeEntry leave_time e :: rest, e)
      else none

/-- Outcome of a leave event: `matched` (an open join was closed, the
duration side-channel computed without incident), `unmatched` (no open
join found, warning printed, store untouched), or `error` (an open join
was closed but the duration computation for the log message raised an
uncaught `TypeError`). -/
inductive LeaveOutcome
  | matched
  | unmatched
  | error
  deriving Repr, DecidableEq

/-- `log_leave`: reverse-scan for the most recent open join of
(meeting_id, user_id); close it if found and compute the duration for
the printed message, otherwise leave the store untouched. -/
def log_leave (meeting_id user_id leave_time : String) (log : List LogEntry) :
    List LogEntry × LeaveOutcome :=
  match closeLast meeting_id user_id leave_time log with
  | some (r, me) =>
    (r, if (calculate_duration me.join_time leave_time).isSome then .matched else .error)
  | none => (log, .unmatched)

/-- Per-user bucket of `calculate_durations`: the value dictionary
`{"user_name": ..., "total_minutes": ..., "sessions": ...}`. -/
structure UserAgg where
  user_name : String
  total_minutes : ℚ
  sessions : Nat
  deriving Repr, DecidableEq

/-- Lookup in the association-list embedding of the Python dict. -/
def lookupUA (uid : String) : List (String × UserAgg) → Option UserAgg
  | [] => none
  | (k, a) :: rest => if k = uid then some a else lookupUA uid rest

/-- Add a duration to the bucket of `uid`, leaving other keys alone. -/
def bump (uid : String) (dur : ℚ) : List (String × UserAgg) → List (String × UserAgg)
  | [] => []
  | (k, a) :: rest =>
    if k = uid then
      (k, ⟨a.user_name, a.total_minutes + dur, a.sessions + 1⟩) :: rest
    else (k, a) :: bump uid dur rest

/-- The body of `calculate_durations` for one qualifying entry: create
the bucket (at the end, preserving dict insertion order) if absent,
then accumulate the duration and the session count. -/
def addSession (d : List (String × UserAgg)) (uid name : String) (dur : ℚ) :
    List (String × UserAgg) :=
  if (lookupUA uid d).isSome then bump uid dur d
  else bump uid dur (d ++ [(uid, ⟨name, 0, 0⟩)])

/-- The filter of `calculate_durations`: matching meeting and truthy
`join_time` and `leave_time` (`None` and the empty string are falsy). -/
def qualifies (meeting_id : String) (e : LogEntry) : Bool :=
  e.meeting_id == meeting_id && e.join_time != "" && e.leave_time.getD "" != ""

/-- One step of the aggregation loop.  A `none` accumulator records
that an earlier `calculate_duration` call raised an uncaught exception,
aborting the whole loop. -/
def aggStep (meeting_id : String) (acc : Option (List (String × UserAgg)))
    (e : LogEntry) : Option (List (String × UserAgg)) :=
  match acc with
  | none => none
  | some d =>
    if qualifies meeting_id e then
      (calculate_duration e.join_time (e.leave_time.getD "")).map
        (addSession d e.user_id e.user_name)
    else some d

/-- `calculate_durations(meeting_id)`: forward scan over the whole log,
accumulating per-user totals over completed sessions.  `none` encodes
an uncaught exception escaping the loop. -/
def calculate_durations (meeting_id : String) (log : List LogEntry) :
    Option (List (String × UserAgg)) :=
  log.foldl (aggStep meeting_id) (some [])

/-- The JSON object returned by the `/report/{meeting_id}` endpoint. -/
structure Report where
  meeting_id : String
  attendance : List (String × UserAgg)
  total_participants : Nat
  deriving Repr, DecidableEq

/-- The `report` endpoint: aggregate and report the number of distinct
participants with completed sessions. -/
def report (meeting_id : String) (log : List LogEntry) : Option Report :=
  (calculate_durations meeting_id log).map (fun d => ⟨meeting_id, d, d.length⟩)

/-- The `get_logs` endpoint's `logs` field: all entries, or the
entries of one meeting when a truthy `meeting_id` is passed (`None` and
the empty string are falsy and return everything). -/
def get_logs (meeting_id : Option String) (log : List LogEntry) : List LogEntry :=
  match meeting_id with
  | some m => if m = "" then log else log.filter (fun e => e.meeting_id == m)
  | none => log

/-- The `clear_logs` endpoint: empty the store, return the new store
and the removed-entry count. -/
def clear_logs (log : List LogEntry) : List LogEntry × Nat :=
  ([], log.length)

/-! ### Sample records used by concrete witnesses -/

/-- An open (`"joined"`, no leave time) record for meeting `M1`. -/
def sampleOpen : LogEntry :=
  ⟨"joined", "M1", "U1", "Alice", "2024-01-01T09:00:00Z", none, "ts0"⟩

/-- A second, later-appended open record for the same pair. -/
def sampleOpen2 : LogEntry :=
  ⟨"joined", "M1", "U1", "Alice", "2024-01-01T09:30:00Z", none, "ts2"⟩

/-- A closed (`"left"`) ten-minute record for meeting `M1`. -/
def sampleClosed : LogEntry :=
  ⟨"left", "M1", "U1", "Alice", "2024-01-01T10:00:00Z", some "2024-01-01T10:10:00Z", "ts1"⟩

/-! ### Aggregation: auxiliary specifications -/

/-- The qualifying entries of the aggregation loop restricted to one
user: matching meeting, truthy timestamps, matching user. -/
def qualFor (mid uid : String) (log : List LogEntry) : List LogEntry :=
  log.filter (fun e => qualifies mid e && e.user_id == uid)

/-- The CLOSED records of a user in a meeting in the sense of the data
model: matching ids and `leave_time` set. -/
def userClosed (mid uid : String) (log : List LogEntry) : List LogEntry :=
  log.filter (fun e => e.meeting_id == mid && e.user_id == uid && e.leave_time.isSome)

/-- The duration the aggregation accumulates for a record (`0` stands
in at a record whose duration computation would raise, which cannot
happen when the surrounding aggregation returned at all). -/
def durOf (e : LogEntry) : ℚ :=
  (calculate_duration e.join_time (e.leave_time.getD "")).getD 0

/-- The effect of the aggregation loop on the bucket of a single user,
expressed as a recursion over the scanned entries. -/
def aggSpecUpd (mid uid : String) : List LogEntry → Option UserAgg → Option UserAgg
  | [], cur => cur
  | e :: rest, cur =>
    if qualifies mid e && e.user_id == uid then
      aggSpecUpd mid uid rest (some (match cur with
        | none => ⟨e.user_name, 0 + durOf e, 0 + 1⟩
        | some a => ⟨a.user_name, a.total_minutes + durOf e, a.sessions + 1⟩))
    else aggSpecUpd mid uid rest cur

/-- A second closed session for Alice in `M1`, twenty minutes long. -/
def sessionB : LogEntry :=
  ⟨"left", "M1", "U1", "Alice", "2024-01-01T11:00:00Z", some "2024-01-01T11:20:00Z", "tb"⟩

/-! ### Lemmas about the reverse-scan matcher -/

theorem closeLast_eq_none (m u lt : String) (log : List LogEntry)
    (h : ∀ e ∈ log, leaveMatches m u e = false) :
    closeLast m u lt log = none := by
  induction log with
  | nil => rfl
  | cons e rest ih =>
    have he := h e (by simp)
    have hr : closeLast m u lt rest = none := ih (fun x hx => h x (by simp [hx]))
    simp [closeLast, hr, he]

theorem closeLast_none_inv (m u lt : String) (log : List LogEntry)
    (h : closeLast m u lt log = none) :
    ∀ e ∈ log, leaveMatches m u e = false := by
  induction log with
  | nil => simp
  | cons x rest ih =>
    cases hr : closeLast m u lt rest with
    | some p => simp [closeLast, hr] at h
    | none =>
      simp only [closeLast, hr] at h
      intro e he
      rcases List.mem_cons.mp he with hhd | htl
      · subst hhd
        cases hlm : leaveMatches m u e with
        | false => rfl
        | true => simp [hlm] at h
      · exact ih hr e htl

theorem closeLast_split (m u lt : String) (l1 l2 : List LogEntry) (e : LogEntry)
    (hm : leaveMatches m u e = true)
    (h2 : ∀ x ∈ l2, leaveMatches m u x = false) :
    closeLast m u lt (l1 ++ e :: l2) = some (l1 ++ closeEntry lt e :: l2, e) := by
  induction l1 with
  | nil =>
    have hr : closeLast m u lt l2 = none := closeLast_eq_none m u lt l2 h2
    simp [closeLast, hr, hm]
  | cons x l1' ih =>
    simp [closeLast, ih]

theorem closeLast_inv (m u lt : String) (log r : List LogEntry) (me : LogEntry)
    (h : closeLast m u lt log = some (r, me)) :
    ∃ l1 l2, log = l1 ++ me :: l2 ∧ r = l1 ++ closeEntry lt me :: l2 ∧
      leaveMatches m u me = true ∧ ∀ x ∈ l2, leaveMatches m u x = false := by
  induction log generalizing r with
  | nil => simp [closeLast] at h
  | cons x rest ih =>
    cases hr : closeLast m u lt rest with
    | some p =>
      obtain ⟨r', me'⟩ := p
      simp only [closeLast, hr] at h
      obtain ⟨hrr, hme⟩ : x :: r' = r ∧ me' = me := by
        constructor <;> [exact congrArg Prod.fst (Option.some.inj h);
          exact congrArg Prod.snd (Option.some.inj h)]
      subst hme
      obtain ⟨l1, l2, hlog, hr', hmm, hpost⟩ := ih r' hr
      exact ⟨x :: l1, l2, by simp [hlog], by simp [← hrr, hr'], hmm, hpost⟩
    | none =>
      simp only [closeLast, hr] at h
      cases hlm : leaveMatches m u x with
      | false => simp [hlm] at h
      | true =>
        simp only [hlm, if_true] at h
        obtain ⟨hrr, hme⟩ : closeEntry lt x :: rest = r ∧ x = me := by
          constructor <;> [exact congrArg Prod.fst (Option.some.inj h);
            exact congrArg Prod.snd (Option.some.inj h)]
        subst hme
        exact ⟨[], rest, by simp, by simp [← hrr], hlm, closeLast_none_inv m u lt rest hr⟩

theorem getElem?_append_middle {α : Type} (l1 l2 : List α) (a b : α) (i : Nat)
    (hi : i ≠ l1.length) : (l1 ++ a :: l2)[i]? = (l1 ++ b :: l2)[i]? := by
  rw [List.getElem?_append, List.getElem?_append]
  rcases lt_or_ge i l1.length with h | h
  · simp [h]
  · simp only [if_neg (by omega : ¬ i < l1.length)]
    obtain ⟨k, hk⟩ : ∃ k, i - l1.length = k + 1 := ⟨i - l1.length - 1, by omega⟩
    rw [hk]
    simp

/-! ### Claims about the session matcher and the store -/

/-- C1: for every store state and every (meeting_id, user_id) with no
open record for that pair (no record of that pair with `leave_time`
absent), `log_leave` leaves the store completely unchanged and reports
the `unmatched` outcome. -/
theorem log_leave_unmatched_noop (m u lt : String) (log : List LogEntry)
    (h : ∀ e ∈ log, ¬(e.meeting_id = m ∧ e.user_id = u ∧ e.leave_time = none)) :
    log_leave m u lt log = (log, LeaveOutcome.unmatched) := by
  have hn : closeLast m u lt log = none := by
    apply closeLast_eq_none
    intro e he
    cases hlm : leaveMatches m u e with
    | false => rfl
    | true =>
      simp [leaveMatches] at hlm
      exact absurd ⟨hlm.1.1.2, hlm.1.2, hlm.2⟩ (h e he)
  simp [log_leave, hn]

/-- C1 witness: a leave for a pair whose only record is already closed
changes nothing and reports `unmatched`. -/
theorem log_leave_unmatched_noop_witness :
    log_leave "M1" "U1" "2024-01-01T11:00:00Z" [sampleClosed] =
      ([sampleClosed], LeaveOutcome.unmatched) :=
  log_leave_unmatched_noop _ _ _ _ (by decide)

/-- C2: `clear_logs` returns the pre-clear record count and empties the
store, so that `get_logs` with no meeting filter returns the empty
sequence afterwards. -/
theorem clear_logs_resets (log : List LogEntry) :
    (clear_logs log).2 = log.length ∧ get_logs none (clear_logs log).1 = [] :=
  ⟨rfl, rfl⟩

/-- C3: with two open records for the pair in the store (`e0` earlier,
`e` the most recently appended open match), `log_leave` closes `e` —
setting its `leave_time` and flipping it to `"left"` — and the earlier
`e0` survives unchanged and still open. -/
theorem log_leave_closes_most_recent (m u lt : String) (l1 l2 : List LogEntry)
    (e e0 : LogEntry)
    (hm : leaveMatches m u e = true)
    (h2 : ∀ x ∈ l2, leaveMatches m u x = false)
    (h0 : e0 ∈ l1) (hm0 : leaveMatches m u e0 = true) :
    (log_leave m u lt (l1 ++ e :: l2)).1 = l1 ++ closeEntry lt e :: l2 ∧
    (closeEntry lt e).leave_time = some lt ∧
    (closeEntry lt e).event = "left" ∧
    e0 ∈ (log_leave m u lt (l1 ++ e :: l2)).1 ∧
    e0.leave_time = none := by
  have hc := closeLast_split m u lt l1 l2 e hm h2
  have h1 : (log_leave m u lt (l1 ++ e :: l2)).1 = l1 ++ closeEntry lt e :: l2 := by
    simp [log_leave, hc]
  refine ⟨h1, rfl, rfl, ?_, ?_⟩
  · rw [h1]
    exact List.mem_append_left _ h0
  · simp [leaveMatches] at hm0
    exact hm0.2

/-- C3 witness: two open joins for (M1, U1); the leave closes the
later-appended one and the earlier one remains open. -/
theorem log_leave_closes_most_recent_witness :
    (log_leave "M1" "U1" "2024-01-01T10:00:00Z" [sampleOpen, sampleOpen2]).1 =
      [sampleOpen, closeEntry "2024-01-01T10:00:00Z" sampleOpen2] ∧
    (closeEntry "2024-01-01T10:00:00Z" sampleOpen2).leave_time =
      some "2024-01-01T10:00:00Z" ∧
    (closeEntry "2024-01-01T10:00:00Z" sampleOpen2).event = "left" ∧
    sampleOpen ∈ (log_leave "M1" "U1" "2024-01-01T10:00:00Z" [sampleOpen, sampleOpen2]).1 ∧
    sampleOpen.leave_time = none :=
  log_leave_closes_most_recent "M1" "U1" "2024-01-01T10:00:00Z" [sampleOpen] []
    sampleOpen2 sampleOpen (by decide) (by decide) (by decide) (by decide)

/-- C4: a record whose `leave_time` is already set is untouched by any
subsequent `log_leave` (which can only match records with `leave_time`
absent) and by any `log_join` (which only appends): the record is still
found unchanged at its position afterwards. -/
theorem closed_record_immutable (m u lt m2 u2 n2 jt2 ts2 : String)
    (log : List LogEntry) (i : Nat) (e : LogEntry) (t : String)
    (hget : log[i]? = some e) (ht : e.leave_time = some t) :
    (log_leave m u lt log).1[i]? = some e ∧
    (log_join m2 u2 n2 jt2 ts2 log)[i]? = some e := by
  constructor
  · cases hc : closeLast m u lt log with
    | none => simp [log_leave, hc, hget]
    | some p =>
      obtain ⟨r, me⟩ := p
      obtain ⟨l1, l2, hlog, hr, hm, -⟩ := closeLast_inv m u lt log r me hc
      have hmnone : me.leave_time = none := by
        simp [leaveMatches] at hm
        exact hm.2
      have hine : i ≠ l1.length := by
        intro hEq
        subst hEq
        rw [hlog, List.getElem?_append_right le_rfl] at hget
        simp at hget
        rw [← hget] at ht
        rw [hmnone] at ht
        exact Option.noConfusion ht
      have h1 : (log_leave m u lt log).1 = l1 ++ closeEntry lt me :: l2 := by
        simp [log_leave, hc, hr]
      rw [h1, getElem?_append_middle l1 l2 (closeEntry lt me) me i hine, ← hlog]
      exact hget
  · have hi : i < log.length := (List.getElem?_eq_some.mp hget).1
    simp [log_join, List.getElem?_append, hi, hget]

/-- C4 witness: the closed sample record at position 0 is untouched by
a further leave for its pair and by a further join. -/
theorem closed_record_immutable_witness :
    (log_leave "M1" "U1" "2024-01-01T12:00:00Z" [sampleClosed]).1[0]? = some sampleClosed ∧
    (log_join "M2" "U2" "Bob" "2024-01-01T12:00:00Z" "ts3" [sampleClosed])[0]? =
      some sampleClosed :=
  closed_record_immutable "M1" "U1" "2024-01-01T12:00:00Z" "M2" "U2" "Bob"
    "2024-01-01T12:00:00Z" "ts3" [sampleClosed] 0 sampleClosed
    "2024-01-01T10:10:00Z" (by decide) (by decide)

/-- C7: `log_join` appends exactly one new record at the end of the
store — open (`"joined"`), `leave_time` absent, carrying the four given
fields — and every pre-existing record is unchanged at its position. -/
theorem log_join_appends (m u n jt now : String) (log : List LogEntry) :
    log_join m u n jt now log =
      log ++ [⟨"joined", m, u, n, jt, none, now⟩] ∧
    (log_join m u n jt now log).length = log.length + 1 ∧
    ∀ i : Nat, i < log.length → (log_join m u n jt now log)[i]? = log[i]? := by
  refine ⟨rfl, by simp [log_join], ?_⟩
  intro i hi
  simp [log_join, List.getElem?_append, hi]

/-- C7 witness: joining on top of a one-record store appends the new
open record and leaves position 0 unchanged. -/
theorem log_join_appends_witness :
    log_join "M2" "U2" "Bob" "2024-01-01T12:00:00Z" "ts3" [sampleOpen] =
      [sampleOpen, ⟨"joined", "M2", "U2", "Bob", "2024-01-01T12:00:00Z", none, "ts3"⟩] ∧
    (log_join "M2" "U2" "Bob" "2024-01-01T12:00:00Z" "ts3" [sampleOpen])[0]? =
      some sampleOpen := by
  have h := log_join_appends "M2" "U2" "Bob" "2024-01-01T12:00:00Z" "ts3" [sampleOpen]
  exact ⟨h.1, by rw [h.2.2 0 (by decide)]; rfl⟩

/-- C10: whenever `log_leave` finds a match (outcome not `unmatched`),
the store decomposes around one matched open record: only that record
is replaced — its `leave_time` set and its state flag flipped, all
other fields preserved — while length, order and every other record are
unchanged. -/
theorem log_leave_frame (m u lt : String) (log : List LogEntry)
    (h : (log_leave m u lt log).2 ≠ LeaveOutcome.unmatched) :
    ∃ l1 e l2, log = l1 ++ e :: l2 ∧
      (log_leave m u lt log).1 = l1 ++ closeEntry lt e :: l2 ∧
      leaveMatches m u e = true ∧
      (log_leave m u lt log).1.length = log.length ∧
      (closeEntry lt e).meeting_id = e.meeting_id ∧
      (closeEntry lt e).user_id = e.user_id ∧
      (closeEntry lt e).user_name = e.user_name ∧
      (closeEntry lt e).join_time = e.join_time ∧
      (closeEntry lt e).timestamp = e.timestamp ∧
      (closeEntry lt e).leave_time = some lt ∧
      (closeEntry lt e).event = "left" := by
  cases hc : closeLast m u lt log with
  | none =>
    exfalso
    apply h
    simp [log_leave, hc]
  | some p =>
    obtain ⟨r, me⟩ := p
    obtain ⟨l1, l2, hlog, hr, hm, -⟩ := closeLast_inv m u lt log r me hc
    have h1 : (log_leave m u lt log).1 = l1 ++ closeEntry lt me :: l2 := by
      simp [log_leave, hc, hr]
    refine ⟨l1, me, l2, hlog, h1, hm, ?_, rfl, rfl, rfl, rfl, rfl, rfl, rfl⟩
    rw [h1, hlog]
    simp

/-- C10 witness: the frame property instantiated on a one-record store
holding a single open join. -/
theorem log_leave_frame_witness :
    ∃ l1 e l2, ([sampleOpen] : List LogEntry) = l1 ++ e :: l2 ∧
      (log_leave "M1" "U1" "2024-01-01T10:00:00Z" [sampleOpen]).1 =
        l1 ++ closeEntry "2024-01-01T10:00:00Z" e :: l2 ∧
      leaveMatches "M1" "U1" e = true ∧
      (log_leave "M1" "U1" "2024-01-01T10:00:00Z" [sampleOpen]).1.length =
        ([sampleOpen] : List LogEntry).length ∧
      (closeEntry "2024-01-01T10:00:00Z" e).meeting_id = e.meeting_id ∧
      (closeEntry "2024-01-01T10:00:00Z" e).user_id = e.user_id ∧
      (closeEntry "2024-01-01T10:00:00Z" e).user_name = e.user_name ∧
      (closeEntry "2024-01-01T10:00:00Z" e).join_time = e.join_time ∧
      (closeEntry "2024-01-01T10:00:00Z" e).timestamp = e.timestamp ∧
      (closeEntry "2024-01-01T10:00:00Z" e).leave_time = some "2024-01-01T10:00:00Z" ∧
      (closeEntry "2024-01-01T10:00:00Z" e).event = "left" :=
  log_leave_frame "M1" "U1" "2024-01-01T10:00:00Z" [sampleOpen] (by decide)

/-! ### Claims about the duration calculator -/

/-- C8: whenever at least one of the two normalized timestamps fails to
parse, `calculate_duration` returns exactly `0.0` and no exception
escapes (the parse `ValueError` is caught before any subtraction can
happen). -/
theorem duration_fail_soft (jt lt : String)
    (h : fromisoformat (pyReplaceZ jt) = none ∨ fromisoformat (pyReplaceZ lt) = none) :
    calculate_duration jt lt = some 0 := by
  rcases h with h | h
  · simp [calculate_duration, h]
  · cases hj : fromisoformat (pyReplaceZ jt) with
    | none => simp [calculate_duration, hj]
    | some j => simp [calculate_duration, hj, h]

/-- C8 witness: `duration_minutes("not-a-time", "2024-01-01T10:00:00Z")`
is `0.0`. -/
theorem duration_fail_soft_witness :
    calculate_duration "not-a-time" "2024-01-01T10:00:00Z" = some 0 :=
  duration_fail_soft "not-a-time" "2024-01-01T10:00:00Z" (Or.inl (by decide))

/-- C9 counterexample: both timestamps are well-formed ISO-8601 (both
parse, the second with a trailing `Z`), yet `calculate_duration` does
not return their elapsed time in minutes — the naive-minus-aware
subtraction raises a `TypeError` that the `except (ValueError,
AttributeError)` clause does not catch, so nothing is returned at all. -/
theorem duration_mixed_awareness_raises :
    fromisoformat (pyReplaceZ "2024-01-01T10:00:00") =
      some ⟨2024, 1, 1, 10, 0, 0, 0, none⟩ ∧
    fromisoformat (pyReplaceZ "2024-01-01T10:30:00Z") =
      some ⟨2024, 1, 1, 10, 30, 0, 0, some 0⟩ ∧
    calculate_duration "2024-01-01T10:00:00" "2024-01-01T10:30:00Z" = none := by
  refine ⟨by decide, by decide, ?_⟩
  have h1 : fromisoformat (pyReplaceZ "2024-01-01T10:00:00") =
      some ⟨2024, 1, 1, 10, 0, 0, 0, none⟩ := by decide
  have h2 : fromisoformat (pyReplaceZ "2024-01-01T10:30:00Z") =
      some ⟨2024, 1, 1, 10, 30, 0, 0, some 0⟩ := by decide
  simp [calculate_duration, h1, h2, pyDateTimeSub]

/-- C9 (amended): for every pair of well-formed timestamps that are
both offset-aware or both offset-naive, `calculate_duration` returns
the elapsed time `leave - join` in minutes, negative without clamping
when the timestamps are inverted.  (A mixed naive/aware pair instead
raises an uncaught `TypeError`.) -/
theorem duration_elapsed (jt lt : String) (j l : PyDateTime)
    (hj : fromisoformat (pyReplaceZ jt) = some j)
    (hl : fromisoformat (pyReplaceZ lt) = some l)
    (hsame : l.tzOffset.isSome = j.tzOffset.isSome) :
    calculate_duration jt lt =
      some (((absMicros l - absMicros j : ℤ) : ℚ) / 1000000 / 60) ∧
    (absMicros l < absMicros j →
      ((absMicros l - absMicros j : ℤ) : ℚ) / 1000000 / 60 < 0) := by
  constructor
  · cases hlo : l.tzOffset with
    | none =>
      cases hjo : j.tzOffset with
      | none =>
        simp [calculate_duration, hj, hl, pyDateTimeSub, hlo, hjo, microsToMinutes,
          absMicros]
      | some oj => rw [hlo, hjo] at hsame; simp at hsame
    | some ol =>
      cases hjo : j.tzOffset with
      | none => rw [hlo, hjo] at hsame; simp at hsame
      | some oj =>
        simp [calculate_duration, hj, hl, pyDateTimeSub, hlo, hjo, microsToMinutes,
          absMicros]
  · intro hlt
    have hz : absMicros l - absMicros j < 0 := sub_neg.mpr hlt
    have hq : ((absMicros l - absMicros j : ℤ) : ℚ) < 0 := by exact_mod_cast hz
    have h6 := div_neg_of_neg_of_pos hq (by norm_num : (0 : ℚ) < 1000000)
    exact div_neg_of_neg_of_pos h6 (by norm_num : (0 : ℚ) < 60)

/-- C9 witness: a 30-minute aware pair gives exactly `30.0` minutes. -/
theorem duration_elapsed_witness :
    calculate_duration "2024-01-01T10:00:00Z" "2024-01-01T10:30:00Z" = some 30 := by
  have h := (duration_elapsed "2024-01-01T10:00:00Z" "2024-01-01T10:30:00Z"
      ⟨2024, 1, 1, 10, 0, 0, 0, some 0⟩ ⟨2024, 1, 1, 10, 30, 0, 0, some 0⟩
      (by decide) (by decide) rfl).1
  have hd : absMicros ⟨2024, 1, 1, 10, 30, 0, 0, some 0⟩ -
      absMicros ⟨2024, 1, 1, 10, 0, 0, 0, some 0⟩ = 1800000000 := by decide
  rw [h, hd]
  norm_num

/-! ### Aggregation lemmas -/

theorem lookupUA_bump_self (uid : String) (dur : ℚ) (d : List (String × UserAgg)) :
    lookupUA uid (bump uid dur d) =
      (lookupUA uid d).map
        (fun a => ⟨a.user_name, a.total_minutes + dur, a.sessions + 1⟩) := by
  induction d with
  | nil => rfl
  | cons p rest ih =>
    obtain ⟨k, a⟩ := p
    by_cases hk : k = uid
    · subst hk
      simp [bump, lookupUA]
    · simp [bump, lookupUA, hk, ih]

theorem lookupUA_bump_ne (v uid : String) (dur : ℚ) (d : List (String × UserAgg))
    (h : v ≠ uid) : lookupUA v (bump uid dur d) = lookupUA v d := by
  induction d with
  | nil => rfl
  | cons p rest ih =>
    obtain ⟨k, a⟩ := p
    by_cases hk : k = uid
    · subst hk
      simp [bump, lookupUA, Ne.symm h]
    · by_cases hv : k = v
      · subst hv
        simp [bump, lookupUA, hk]
      · simp [bump, lookupUA, hk, hv, ih]

theorem lookupUA_append_self (uid : String) (x : UserAgg) (d : List (String × UserAgg))
    (h : lookupUA uid d = none) : lookupUA uid (d ++ [(uid, x)]) = some x := by
  induction d with
  | nil => simp [lookupUA]
  | cons p rest ih =>
    obtain ⟨k, a⟩ := p
    by_cases hk : k = uid
    · subst hk
      simp [lookupUA] at h
    · simp only [lookupUA, hk, if_false, List.cons_append] at h ⊢
      exact ih h

theorem lookupUA_append_ne (v k : String) (x : UserAgg) (d : List (String × UserAgg))
    (h : v ≠ k) : lookupUA v (d ++ [(k, x)]) = lookupUA v d := by
  induction d with
  | nil => simp [lookupUA, Ne.symm h]
  | cons p rest ih =>
    obtain ⟨k', a⟩ := p
    by_cases hk : k' = v
    · simp [lookupUA, hk]
    · simp [lookupUA, hk, ih]

theorem lookupUA_addSession_self (uid name : String) (dur : ℚ)
    (d : List (String × UserAgg)) :
    lookupUA uid (addSession d uid name dur) =
      some (match lookupUA uid d with
        | none => (⟨name, 0 + dur, 0 + 1⟩ : UserAgg)
        | some a => ⟨a.user_name, a.total_minutes + dur, a.sessions + 1⟩) := by
  cases hl : lookupUA uid d with
  | some a =>
    simp only [addSession, hl, Option.isSome_some, if_true]
    rw [lookupUA_bump_self, hl]
    rfl
  | none =>
    simp only [addSession, hl, Option.isSome_none, Bool.false_eq_true, if_false]
    rw [lookupUA_bump_self, lookupUA_append_self uid _ d hl]
    rfl

theorem lookupUA_addSession_ne (v uid name : String) (dur : ℚ)
    (d : List (String × UserAgg)) (h : v ≠ uid) :
    lookupUA v (addSession d uid name dur) = lookupUA v d := by
  cases hl : lookupUA uid d with
  | some a =>
    simp only [addSession, hl, Option.isSome_some, if_true]
    exact lookupUA_bump_ne v uid dur d h
  | none =>
    simp only [addSession, hl, Option.isSome_none, Bool.false_eq_true, if_false]
    rw [lookupUA_bump_ne _ _ _ _ h, lookupUA_append_ne _ _ _ _ h]

theorem foldl_aggStep_none (mid : String) (log : List LogEntry) :
    log.foldl (aggStep mid) none = none := by
  induction log with
  | nil => rfl
  | cons e rest ih => simpa [List.foldl_cons, aggStep] using ih

theorem foldl_aggStep_const (mid : String) (log : List LogEntry)
    (h : ∀ e ∈ log, qualifies mid e = false) :
    ∀ acc, log.foldl (aggStep mid) acc = acc := by
  induction log with
  | nil => intro acc; rfl
  | cons e rest ih =>
    intro acc
    rw [List.foldl_cons]
    have hstep : aggStep mid acc e = acc := by
      cases acc with
      | none => rfl
      | some d => simp [aggStep, h e (by simp)]
    rw [hstep]
    exact ih (fun x hx => h x (by simp [hx])) acc

theorem foldl_aggStep_lookup (mid : String) (log : List LogEntry) :
    ∀ d d' : List (String × UserAgg),
      log.foldl (aggStep mid) (some d) = some d' →
      ∀ uid, lookupUA uid d' = aggSpecUpd mid uid log (lookupUA uid d) := by
  induction log with
  | nil =>
    intro d d' h uid
    simp only [List.foldl_nil, Option.some.injEq] at h
    subst h
    rfl
  | cons e rest ih =>
    intro d d' h uid
    rw [List.foldl_cons] at h
    cases hq : qualifies mid e with
    | false =>
      rw [show aggStep mid (some d) e = some d from by simp [aggStep, hq]] at h
      rw [ih d d' h uid]
      simp [aggSpecUpd, hq]
    | true =>
      cases hcd : calculate_duration e.join_time (e.leave_time.getD "") with
      | none =>
        rw [show aggStep mid (some d) e = none from by simp [aggStep, hq, hcd]] at h
        rw [foldl_aggStep_none] at h
        exact absurd h (by simp)
      | some v =>
        rw [show aggStep mid (some d) e =
            some (addSession d e.user_id e.user_name v) from by
          simp [aggStep, hq, hcd]] at h
        have hv : durOf e = v := by simp [durOf, hcd]
        rw [ih _ d' h uid]
        by_cases hu : uid = e.user_id
        · subst hu
          rw [lookupUA_addSession_self]
          simp [aggSpecUpd, hq, hv]
        · rw [lookupUA_addSession_ne _ _ _ _ _ hu]
          have hne : (e.user_id == uid) = false := by
            simp [Ne.symm hu]
          simp [aggSpecUpd, hne]

theorem aggSpecUpd_some (mid uid : String) (log : List LogEntry) :
    ∀ a : UserAgg, aggSpecUpd mid uid log (some a) =
      some ⟨a.user_name, a.total_minutes + ((qualFor mid uid log).map durOf).sum,
        a.sessions + (qualFor mid uid log).length⟩ := by
  induction log with
  | nil =>
    intro a
    cases a
    simp [aggSpecUpd, qualFor]
  | cons e rest ih =>
    intro a
    cases hc : (qualifies mid e && e.user_id == uid) with
    | false =>
      simp only [aggSpecUpd, hc, Bool.false_eq_true, if_false]
      rw [ih a]
      simp [qualFor, List.filter_cons, hc]
    | true =>
      simp only [aggSpecUpd, hc, if_true]
      rw [ih]
      simp only [qualFor, List.filter_cons, hc, if_true, List.map_cons, List.sum_cons,
        List.length_cons, Option.some.injEq, UserAgg.mk.injEq]
      exact ⟨trivial, by ring, by omega⟩

theorem aggSpecUpd_of_empty (mid uid : String) (log : List LogEntry)
    (h : qualFor mid uid log = []) :
    ∀ cur, aggSpecUpd mid uid log cur = cur := by
  induction log with
  | nil => intro cur; rfl
  | cons e rest ih =>
    intro cur
    cases hc : (qualifies mid e && e.user_id == uid) with
    | true => simp [qualFor, List.filter_cons, hc] at h
    | false =>
      simp only [aggSpecUpd, hc, Bool.false_eq_true, if_false]
      exact ih (by simpa [qualFor, List.filter_cons, hc] using h) cur

theorem aggSpecUpd_none (mid uid : String) (log : List LogEntry)
    (h : qualFor mid uid log ≠ []) :
    ∃ nm, aggSpecUpd mid uid log none =
      some ⟨nm, ((qualFor mid uid log).map durOf).sum, (qualFor mid uid log).length⟩ := by
  induction log with
  | nil => simp [qualFor] at h
  | cons e rest ih =>
    cases hc : (qualifies mid e && e.user_id == uid) with
    | false =>
      have h' : qualFor mid uid rest ≠ [] := by
        simpa [qualFor, List.filter_cons, hc] using h
      obtain ⟨nm, hnm⟩ := ih h'
      refine ⟨nm, ?_⟩
      simp only [aggSpecUpd, hc, Bool.false_eq_true, if_false]
      rw [hnm]
      simp [qualFor, List.filter_cons, hc]
    | true =>
      refine ⟨e.user_name, ?_⟩
      simp only [aggSpecUpd, hc, if_true]
      rw [aggSpecUpd_some]
      simp only [qualFor, List.filter_cons, hc, if_true, List.map_cons, List.sum_cons,
        List.length_cons, Option.some.injEq, UserAgg.mk.injEq]
      exact ⟨trivial, by ring, by omega⟩

theorem qualFor_eq_userClosed (mid uid : String) (log : List LogEntry)
    (hwf : ∀ e ∈ log, e.meeting_id = mid → e.join_time ≠ "" ∧ e.leave_time ≠ some "") :
    qualFor mid uid log = userClosed mid uid log := by
  unfold qualFor userClosed
  apply List.filter_congr
  intro e he
  by_cases hm : e.meeting_id = mid
  · obtain ⟨hj, hl⟩ := hwf e he hm
    have hj' : (e.join_time != "") = true := by simp [hj]
    have hlt : (e.leave_time.getD "" != "") = e.leave_time.isSome := by
      cases hle : e.leave_time with
      | none => simp
      | some s =>
        have hs : s ≠ "" := by
          intro hcon
          exact hl (by rw [hle, hcon])
        simp [hs]
    simp [qualifies, hm, hj', hlt, Bool.and_comm, Bool.and_assoc, Bool.and_left_comm]
  · have ha : (e.meeting_id == mid) = false := by simp [hm]
    simp [qualifies, ha]

/-! ### Claims about the aggregator and report -/

/-- C5: a meeting all of whose records are still open (no `leave_time`
set) yields an empty durations mapping and `total_participants = 0`:
open sessions contribute nothing to the aggregation. -/
theorem open_sessions_excluded (mid : String) (log : List LogEntry)
    (h : ∀ e ∈ log, e.meeting_id = mid → e.leave_time = none) :
    report mid log = some ⟨mid, [], 0⟩ := by
  have hq : ∀ e ∈ log, qualifies mid e = false := by
    intro e he
    by_cases hm : e.meeting_id = mid
    · have hl := h e he hm
      simp [qualifies, hl]
    · simp [qualifies, hm]
  have hd : calculate_durations mid log = some [] :=
    foldl_aggStep_const mid log hq (some [])
  simp [report, hd]

/-- C5 witness: one open record, empty report. -/
theorem open_sessions_excluded_witness :
    report "M1" [sampleOpen] = some ⟨"M1", [], 0⟩ :=
  open_sessions_excluded "M1" [sampleOpen] (by decide)

/-- C6: for every store of well-formed records (non-empty `join_time`,
`leave_time` absent or a non-empty timestamp), whenever the aggregation
completes and lists a user, that user's `total_minutes` is the sum of
the computed durations of their CLOSED records for the meeting and
their `sessions` count is the number of such records. -/
theorem aggregation_sums (mid uid : String) (log : List LogEntry)
    (d : List (String × UserAgg)) (agg : UserAgg)
    (hwf : ∀ e ∈ log, e.meeting_id = mid → e.join_time ≠ "" ∧ e.leave_time ≠ some "")
    (hres : calculate_durations mid log = some d)
    (hu : lookupUA uid d = some agg) :
    agg.total_minutes = ((userClosed mid uid log).map durOf).sum ∧
    agg.sessions = (userClosed mid uid log).length := by
  have hinv := foldl_aggStep_lookup mid log [] d hres uid
  rw [hu] at hinv
  simp only [lookupUA] at hinv
  by_cases hne : qualFor mid uid log = []
  · rw [aggSpecUpd_of_empty _ _ _ hne] at hinv
    exact absurd hinv (by simp)
  · obtain ⟨nm, hnm⟩ := aggSpecUpd_none mid uid log hne
    rw [hnm] at hinv
    have hagg := Option.some.inj hinv
    rw [← qualFor_eq_userClosed mid uid log hwf]
    rw [hagg]
    exact ⟨rfl, rfl⟩

/-- C6 witness: two closed sessions of 10 and 20 minutes give
`total_minutes = 30.0` and `sessions = 2`. -/
theorem aggregation_sums_witness :
    (⟨"Alice", 30, 2⟩ : UserAgg).total_minutes =
      ((userClosed "M1" "U1" [sampleClosed, sessionB]).map durOf).sum ∧
    (⟨"Alice", 30, 2⟩ : UserAgg).sessions =
      (userClosed "M1" "U1" [sampleClosed, sessionB]).length := by
  have hA : calculate_duration "2024-01-01T10:00:00Z" "2024-01-01T10:10:00Z" = some 10 := by
    have h1 : fromisoformat (pyReplaceZ "2024-01-01T10:00:00Z") =
        some ⟨2024, 1, 1, 10, 0, 0, 0, some 0⟩ := by decide
    have h2 : fromisoformat (pyReplaceZ "2024-01-01T10:10:00Z") =
        some ⟨2024, 1, 1, 10, 10, 0, 0, some 0⟩ := by decide
    have h3 : pyDateTimeSub ⟨2024, 1, 1, 10, 10, 0, 0, some 0⟩
        ⟨2024, 1, 1, 10, 0, 0, 0, some 0⟩ = some 600000000 := by decide
    simp [calculate_duration, h1, h2, h3, microsToMinutes]
    norm_num
  have hB : calculate_duration "2024-01-01T11:00:00Z" "2024-01-01T11:20:00Z" = some 20 := by
    have h1 : fromisoformat (pyReplaceZ "2024-01-01T11:00:00Z") =
        some ⟨2024, 1, 1, 11, 0, 0, 0, some 0⟩ := by decide
    have h2 : fromisoformat (pyReplaceZ "2024-01-01T11:20:00Z") =
        some ⟨2024, 1, 1, 11, 20, 0, 0, some 0⟩ := by decide
    have h3 : pyDateTimeSub ⟨2024, 1, 1, 11, 20, 0, 0, some 0⟩
        ⟨2024, 1, 1, 11, 0, 0, 0, some 0⟩ = some 1200000000 := by decide
    simp [calculate_duration, h1, h2, h3, microsToMinutes]
    norm_num
  have hq1 : qualifies "M1" ⟨"left", "M1", "U1", "Alice", "2024-01-01T10:00:00Z",
      some "2024-01-01T10:10:00Z", "ts1"⟩ = true := by decide
  have hq2 : qualifies "M1" ⟨"left", "M1", "U1", "Alice", "2024-01-01T11:00:00Z",
      some "2024-01-01T11:20:00Z", "tb"⟩ = true := by decide
  have hres : calculate_durations "M1" [sampleClosed, sessionB] =
      some [("U1", ⟨"Alice", 30, 2⟩)] := by
    simp only [sampleClosed, sessionB, calculate_durations, List.foldl_cons,
      List.foldl_nil, aggStep, hq1, hq2, if_true, Option.getD_some, hA, hB,
      Option.map_some, addSession, lookupUA, Option.isSome_none, Bool.false_eq_true,
      if_false, List.nil_append, bump, Option.isSome_some, eq_self_iff_true]
    simp [addSession, lookupUA, bump]
    norm_num
  exact aggregation_sums "M1" "U1" [sampleClosed, sessionB]
    [("U1", ⟨"Alice", 30, 2⟩)] ⟨"Alice", 30, 2⟩ (by decide) hres (by decide)

end AttendanceApp
